import Mathlib

set_option maxRecDepth 8000

/-
Shallow embedding of worker.go from the mock-data repository.

The file models the mocking orchestration pipeline: column classification
(columnExtractor, checkIfOneColumnIsASerialDatatype, isItSerialDatatype),
per-table data synthesis and bulk commit (CommitData, CopyData), the
sequence-only table loader (addDataIfItsASerialDatatype) and the
orchestrator (MockTable, tableMocker, BackupConstraintsAndStartDataLoading).

External collaborators (schema introspection, the per-datatype value
generator BuildData, the database connection and COPY transport, constraint
DDL helpers) are modelled as oracle functions supplied as parameters; calls
to them are recorded as events in a trace.  Fatalf, which terminates the Go
process, is modelled as a fatal Outcome that stops the run at the point it
occurs.  Logging and the progress bar are display-only and are not modelled,
except for the skipped-tables warning, which the spec makes observable.
-/

/-- Mirrors the Go struct DBTables: schema and table name of one table. -/
structure DBTables where
  Schema : String
  Table : String
deriving DecidableEq

/-- Mirrors the Go struct DBColumns: column name, declared datatype and the
default-value (sequence) expression, empty when the column has no default. -/
structure DBColumns where
  Column : String
  Datatype : String
  Sequence : String
deriving DecidableEq

/-- Mirrors the Go struct TableCollection: one table together with the
ordered columns that survived classification. -/
structure TableCollection where
  table : DBTables
  Columns : List DBColumns
deriving DecidableEq

/-- Mirrors GenerateTableName: quoted "schema"."table" string. -/
def GenerateTableName (tab schema : String) : String :=
  "\"" ++ schema ++ "\".\"" ++ tab ++ "\""

/-- Mirrors isItSerialDatatype: strings.HasPrefix(c.Sequence, "nextval").
The Go byte-prefix test coincides with the character-prefix test here since
the marker "nextval" is ASCII. -/
def isItSerialDatatype (c : DBColumns) : Bool :=
  List.isPrefixOf "nextval".data c.Sequence.data

/-- Mirrors checkIfOneColumnIsASerialDatatype: the caller guarantees the
column list has exactly one element; if that column is serial, the quoted
table name is appended to the oneColumnTable accumulator. -/
def checkIfOneColumnIsASerialDatatype (oneColumnTable : List String)
    (t : DBTables) (c : List DBColumns) : List String :=
  match c with
  | column :: _ =>
      if isItSerialDatatype column
      then oneColumnTable ++ [GenerateTableName t.Table t.Schema]
      else oneColumnTable
  | [] => oneColumnTable

/-- Mirrors columnExtractor.  The external per-dialect column introspection
(columnExtractorPostgres / columnExtractorGPDB) is abstracted as the
function cols.  The module-level oneColumnTable accumulator is threaded
explicitly; the collection accumulator starts empty, as in the Go function.
Returns (collection, final oneColumnTable). -/
def columnExtractor (cols : DBTables → List DBColumns)
    (oneColumnTable : List String) :
    List DBTables → List TableCollection × List String
  | [] => ([], oneColumnTable)
  | t :: rest =>
    let columns := cols t
    let oct1 := if columns.length == 1
      then checkIfOneColumnIsASerialDatatype oneColumnTable t columns
      else oneColumnTable
    let tempColumns := columns.filter (fun c => !isItSerialDatatype c)
    let r := columnExtractor cols oct1 rest
    (if tempColumns.length > 0
      then { table := t, Columns := tempColumns } :: r.1
      else r.1,
     r.2)

/-- The TableCollection a single table contributes, if any: its non-serial
columns in order, provided at least one remains. -/
def eligibleCollection (cols : DBTables → List DBColumns) (t : DBTables) :
    Option TableCollection :=
  let tempColumns := (cols t).filter (fun c => !isItSerialDatatype c)
  if tempColumns.length > 0 then some { table := t, Columns := tempColumns }
  else none

/-- The oneColumnTable entry a single table contributes, if any: its quoted
name, when it has exactly one column and that column is serial. -/
def seqOnlyOf (cols : DBTables → List DBColumns) (t : DBTables) :
    Option String :=
  match cols t with
  | [c] => if isItSerialDatatype c
           then some (GenerateTableName t.Table t.Schema) else none
  | _ => none

theorem columnExtractor_fst (cols : DBTables → List DBColumns)
    (s0 : List String) (ts : List DBTables) :
    (columnExtractor cols s0 ts).1 = ts.filterMap (eligibleCollection cols) := by
  induction ts generalizing s0 with
  | nil => simp [columnExtractor]
  | cons t rest ih =>
    simp only [columnExtractor, List.filterMap_cons, eligibleCollection]
    by_cases h : ((cols t).filter (fun c => !isItSerialDatatype c)).length > 0
    · simp [h, ih]
    · simp [h, ih]

theorem columnExtractor_snd (cols : DBTables → List DBColumns)
    (s0 : List String) (ts : List DBTables) :
    (columnExtractor cols s0 ts).2 = s0 ++ ts.filterMap (seqOnlyOf cols) := by
  induction ts generalizing s0 with
  | nil => simp [columnExtractor]
  | cons t rest ih =>
    have hstep : (if (cols t).length == 1
        then checkIfOneColumnIsASerialDatatype s0 t (cols t) else s0)
        = s0 ++ (seqOnlyOf cols t).toList := by
      rcases h : cols t with _ | ⟨c, _ | ⟨c2, cs⟩⟩
      · simp [seqOnlyOf, h]
      · by_cases hc : isItSerialDatatype c
        · simp [seqOnlyOf, h, hc, checkIfOneColumnIsASerialDatatype]
        · simp [seqOnlyOf, h, hc, checkIfOneColumnIsASerialDatatype]
      · have : ((c :: c2 :: cs).length == 1) = false := by
          simp [List.length_cons]
        simp [seqOnlyOf, h, this]
    simp only [columnExtractor, hstep, List.filterMap_cons]
    rcases hs : seqOnlyOf cols t with _ | nm
    · simpa [hs] using ih (s0 ++ (seqOnlyOf cols t).toList)
    · rw [ih]
      simp [hs]

/-- Mirrors the Go global: the COPY value delimiter. -/
def delimiter : String := "$"

/-- One observable call to an external collaborator during a run. -/
inductive Event where
  | backupDDL : Event
  | removeConstraints : String → Event
  | copyRow : String → List String → List String → Event
  | insertDefault : String → Event
  | skipWarning : List String → Event
  | fixConstraints : Event
deriving DecidableEq

/-- How a run (or one phase of it) ends.  The fatal constructors model
Fatalf, which terminates the Go process; each carries the table name and
the underlying cause that the code logs at that point (for a copy failure
also the column list and row data of the failing payload). -/
inductive Outcome where
  | ok : Outcome
  | fatalBuild : String → String → Outcome
  | fatalCopy : String → List String → List String → String → Outcome
  | fatalInsert : String → String → Outcome
deriving DecidableEq

/-- Responses of the external collaborators.  gen models BuildData: given
the table name, row index, column position and datatype it returns either a
generated literal or an error string.  copy models the COPY transport for a
given table and row; ins models ExecuteDB for a sequence-only insertion.
Indexing by table/row/column position lets one oracle describe an arbitrary
sequence of responses from the otherwise nondeterministic externals. -/
structure Oracle where
  gen : String → Nat → Nat → String → Except String String
  copy : String → Nat → Option String
  ins : String → Nat → Option String

/-- Mirrors the error test in CommitData:
strings.HasPrefix(fmt.Sprint(err), "unsupported datatypes found"). -/
def isUnsupportedErr (e : String) : Bool :=
  List.isPrefixOf "unsupported datatypes found".data e.data

/-- Result of building one row: the accumulated column-name and value lists
on success, otherwise the error, split by the unsupported-prefix test. -/
inductive RowResult where
  | ok : List String → List String → RowResult
  | unsupported : String → RowResult
  | fatal : String → RowResult
deriving DecidableEq

/-- Mirrors the inner column loop of CommitData: walk the columns of row i,
appending the column name and the generated value; on a generator error,
classify it by the unsupported-prefix test. -/
def buildRowAux (orc : Oracle) (tab : String) (i : Nat) :
    Nat → List DBColumns → List String → List String → RowResult
  | _, [], col, data => RowResult.ok col data
  | k, c :: rest, col, data =>
    match orc.gen tab i k c.Datatype with
    | Except.error e =>
        if isUnsupportedErr e then RowResult.unsupported e
        else RowResult.fatal e
    | Except.ok d => buildRowAux orc tab i (k + 1) rest (col ++ [c.Column]) (data ++ [d])

/-- One full row build for row i, starting from empty accumulators. -/
def buildRow (orc : Oracle) (tab : String) (i : Nat) (columns : List DBColumns) :
    RowResult :=
  buildRowAux orc tab i 0 columns [] []

/-- Events, appended skipped-table names, and outcome of one phase. -/
structure LoadResult where
  events : List Event
  skippedAdd : List String
  outcome : Outcome
deriving DecidableEq

/-- Mirrors the row loop of CommitData over the remaining row indices.
An unsupported datatype appends the table to skippedTab and breaks the
loop (outcome still ok); any other build error is fatal; a transport error
from CopyData is fatal; a successful CopyData call is recorded as a
copyRow event carrying the table, column names and row values. -/
def commitLoop (orc : Oracle) (tab : String) (columns : List DBColumns) :
    List Nat → LoadResult
  | [] => ⟨[], [], Outcome.ok⟩
  | i :: rest =>
    match buildRow orc tab i columns with
    | RowResult.unsupported _ => ⟨[], [tab], Outcome.ok⟩
    | RowResult.fatal e => ⟨[], [], Outcome.fatalBuild tab e⟩
    | RowResult.ok c d =>
      match orc.copy tab i with
      | some e => ⟨[], [], Outcome.fatalCopy tab c d e⟩
      | none =>
        let r := commitLoop orc tab columns rest
        ⟨Event.copyRow tab c d :: r.events, r.skippedAdd, r.outcome⟩

/-- Quoted name of a collection's table, as CommitData computes it. -/
def tabOf (t : TableCollection) : String :=
  GenerateTableName t.table.Table t.table.Schema

/-- Mirrors CommitData: run the row loop for i = 0 .. rows-1. -/
def CommitData (orc : Oracle) (rows : Nat) (t : TableCollection) : LoadResult :=
  commitLoop orc (tabOf t) t.Columns (List.range rows)

/-- Mirrors the payload CopyData submits: the values of one row joined
with the delimiter. -/
def copyPayload (data : List String) : String :=
  String.intercalate delimiter data

/-- An apostrophe character, kept as a named string piece. -/
def squote : String := String.singleton (Char.ofNat 39)

/-- Mirrors the COPY statement string CopyData builds (source spelling). -/
def copyStatment (tab : String) (col : List String) : String :=
  "COPY " ++ tab ++ "(\"" ++ String.intercalate "\",\"" col
    ++ "\") FROM STDIN WITH CSV DELIMITER " ++ squote ++ delimiter ++ squote
    ++ " QUOTE e" ++ squote ++ "\\x01" ++ squote

/-- Mirrors the table loop of BackupConstraintsAndStartDataLoading:
for each collection, remove constraints then commit its data; a fatal
outcome stops the loop (the process died there). -/
def loadTables (orc : Oracle) (rows : Nat) :
    List TableCollection → LoadResult
  | [] => ⟨[], [], Outcome.ok⟩
  | t :: rest =>
    let r := CommitData orc rows t
    match r.outcome with
    | Outcome.ok =>
      let r2 := loadTables orc rows rest
      ⟨Event.removeConstraints (tabOf t) :: r.events ++ r2.events,
       r.skippedAdd ++ r2.skippedAdd, r2.outcome⟩
    | out => ⟨Event.removeConstraints (tabOf t) :: r.events, r.skippedAdd, out⟩

/-- Mirrors the insertion loop of addDataIfItsASerialDatatype for one
table: one ExecuteDB default-values insert per counter value; a failure
is fatal. -/
def insertLoop (orc : Oracle) (t : String) : List Nat → LoadResult
  | [] => ⟨[], [], Outcome.ok⟩
  | n :: rest =>
    match orc.ins t n with
    | some e => ⟨[], [], Outcome.fatalInsert t e⟩
    | none =>
      let r := insertLoop orc t rest
      ⟨Event.insertDefault t :: r.events, [], r.outcome⟩

/-- Mirrors addDataIfItsASerialDatatype: for each gathered one-column
serial table, insert rows default values until the configured count. -/
def addDataIfItsASerialDatatype (orc : Oracle) (rows : Nat) :
    List String → LoadResult
  | [] => ⟨[], [], Outcome.ok⟩
  | t :: rest =>
    let r := insertLoop orc t (List.range rows)
    match r.outcome with
    | Outcome.ok =>
      let r2 := addDataIfItsASerialDatatype orc rows rest
      ⟨r.events ++ r2.events, [], r2.outcome⟩
    | out => ⟨r.events, [], out⟩

/-- Mirrors skipTablesWarning: one aggregate warning, only when some
table was skipped. -/
def skipWarnEvents (sk : List String) : List Event :=
  if sk.isEmpty then [] else [Event.skipWarning sk]

/-- Mirrors BackupConstraintsAndStartDataLoading: back up the DDL, loop
over the collections (remove constraints, commit), then load the
one-column serial tables, then emit the skipped-tables warning. -/
def BackupConstraintsAndStartDataLoading (orc : Oracle) (rows : Nat)
    (tables : List TableCollection) (oneColumnTable : List String) : LoadResult :=
  let r := loadTables orc rows tables
  match r.outcome with
  | Outcome.ok =>
    let r2 := addDataIfItsASerialDatatype orc rows oneColumnTable
    match r2.outcome with
    | Outcome.ok =>
      ⟨Event.backupDDL :: r.events ++ r2.events ++ skipWarnEvents r.skippedAdd,
       r.skippedAdd, Outcome.ok⟩
    | out => ⟨Event.backupDDL :: r.events ++ r2.events, r.skippedAdd, out⟩
  | out => ⟨Event.backupDDL :: r.events, r.skippedAdd, out⟩

/-- Result of a whole MockTable run: event trace, skipped tables,
gathered one-column serial tables, and the outcome. -/
structure RunResult where
  events : List Event
  skippedTab : List String
  oneColumnTable : List String
  outcome : Outcome
deriving DecidableEq

/-- Mirrors MockTable and tableMocker.  The confirmation prompt's result
is discarded by the source, so dontPrompt has no observable effect; it is
kept as a parameter for fidelity.  With a non-empty table list the columns
are extracted; with a non-empty collection the loading pipeline runs, and
unless ignoreConstraint is set, FixConstraints runs after tableMocker
returns - also when the collection was empty and only a warning was
printed, but not when the run died fatally inside the pipeline. -/
def MockTable (orc : Oracle) (rows : Nat)
    (ignoreConstraint dontPrompt : Bool)
    (cols : DBTables → List DBColumns) (tables : List DBTables) : RunResult :=
  if tables.length > 0 then
    let ce := columnExtractor cols [] tables
    if ce.1.length > 0 then
      let r := BackupConstraintsAndStartDataLoading orc rows ce.1 ce.2
      match r.outcome with
      | Outcome.ok =>
        ⟨if ignoreConstraint then r.events
          else r.events ++ [Event.fixConstraints],
         r.skippedAdd, ce.2, Outcome.ok⟩
      | out => ⟨r.events, r.skippedAdd, ce.2, out⟩
    else
      ⟨if ignoreConstraint then [] else [Event.fixConstraints], [], ce.2, Outcome.ok⟩
  else ⟨[], [], [], Outcome.ok⟩

/-- Column-name list of a successful row build (junk otherwise). -/
def rowCol : RowResult → List String
  | RowResult.ok c _ => c
  | _ => []

/-- Value list of a successful row build (junk otherwise). -/
def rowData : RowResult → List String
  | RowResult.ok _ d => d
  | _ => []

/-- Whether a row build succeeded. -/
def rowIsOk : RowResult → Bool
  | RowResult.ok _ _ => true
  | _ => false

/-- Whether a row build failed with an unsupported datatype. -/
def rowIsUnsupported : RowResult → Bool
  | RowResult.unsupported _ => true
  | _ => false

/-- The copyRow event row j of a table produces when its build succeeds. -/
def commitEv (orc : Oracle) (tab : String) (columns : List DBColumns)
    (j : Nat) : Event :=
  Event.copyRow tab (rowCol (buildRow orc tab j columns))
    (rowData (buildRow orc tab j columns))

/-- The full event block of one fully successful table load: constraint
removal followed by one committed copy per requested row. -/
def tableBlock (orc : Oracle) (rows : Nat) (t : TableCollection) : List Event :=
  Event.removeConstraints (tabOf t) ::
    (List.range rows).map (commitEv orc (tabOf t) t.Columns)

/-- Every row of the table builds successfully and its copy is accepted. -/
def tableOK (orc : Oracle) (rows : Nat) (t : TableCollection) : Prop :=
  ∀ j, j < rows →
    rowIsOk (buildRow orc (tabOf t) j t.Columns) = true ∧
    orc.copy (tabOf t) j = none

instance (orc : Oracle) (rows : Nat) (t : TableCollection) :
    Decidable (tableOK orc rows t) := by
  unfold tableOK; infer_instance

/-- Recognizes a committed copy payload for the given table. -/
def isCommitFor (tab : String) : Event → Bool
  | Event.copyRow t _ _ => t == tab
  | _ => false

/-- Number of committed copy payloads for the given table in a trace. -/
def countCommits (tab : String) (evs : List Event) : Nat :=
  evs.countP (isCommitFor tab)

/-- Recognizes a default-values insertion into the given table. -/
def isInsertFor (tab : String) : Event → Bool
  | Event.insertDefault t => t == tab
  | _ => false

/-- Number of default-values insertions into the given table in a trace. -/
def countInserts (tab : String) (evs : List Event) : Nat :=
  evs.countP (isInsertFor tab)

/-- Recognizes the constraint-restoration call. -/
def isFixEv : Event → Bool
  | Event.fixConstraints => true
  | _ => false

theorem commitLoop_all_ok (orc : Oracle) (tab : String)
    (columns : List DBColumns) (is : List Nat)
    (h : ∀ j ∈ is, rowIsOk (buildRow orc tab j columns) = true ∧
        orc.copy tab j = none) :
    commitLoop orc tab columns is
      = ⟨is.map (commitEv orc tab columns), [], Outcome.ok⟩ := by
  induction is with
  | nil => simp [commitLoop]
  | cons i rest ih =>
    obtain ⟨hok, hcopy⟩ := h i (List.mem_cons_self i rest)
    cases hb : buildRow orc tab i columns with
    | ok c d =>
      rw [List.map_cons]
      simp only [commitLoop, hb, hcopy]
      rw [ih (fun j hj => h j (List.mem_cons_of_mem i hj))]
      simp [commitEv, hb, rowCol, rowData]
    | unsupported e => rw [hb] at hok; simp [rowIsOk] at hok
    | fatal e => rw [hb] at hok; simp [rowIsOk] at hok

theorem commitLoop_unsupported (orc : Oracle) (tab : String)
    (columns : List DBColumns) (is1 : List Nat) (i : Nat) (is2 : List Nat)
    (h : ∀ j ∈ is1, rowIsOk (buildRow orc tab j columns) = true ∧
        orc.copy tab j = none)
    (hfail : rowIsUnsupported (buildRow orc tab i columns) = true) :
    commitLoop orc tab columns (is1 ++ i :: is2)
      = ⟨is1.map (commitEv orc tab columns), [tab], Outcome.ok⟩ := by
  induction is1 with
  | nil =>
    cases hb : buildRow orc tab i columns with
    | ok c d => rw [hb] at hfail; simp [rowIsUnsupported] at hfail
    | unsupported e => simp [commitLoop, hb]
    | fatal e => rw [hb] at hfail; simp [rowIsUnsupported] at hfail
  | cons j rest ih =>
    obtain ⟨hok, hcopy⟩ := h j (List.mem_cons_self j rest)
    cases hb : buildRow orc tab j columns with
    | ok c d =>
      rw [List.map_cons, List.cons_append]
      simp only [commitLoop, hb, hcopy]
      rw [ih (fun m hm => h m (List.mem_cons_of_mem _ hm))]
      simp [commitEv, hb, rowCol, rowData]
    | unsupported e => rw [hb] at hok; simp [rowIsOk] at hok
    | fatal e => rw [hb] at hok; simp [rowIsOk] at hok

theorem commitLoop_fatalBuild (orc : Oracle) (tab : String)
    (columns : List DBColumns) (is1 : List Nat) (i : Nat) (is2 : List Nat)
    (e : String)
    (h : ∀ j ∈ is1, rowIsOk (buildRow orc tab j columns) = true ∧
        orc.copy tab j = none)
    (hfail : buildRow orc tab i columns = RowResult.fatal e) :
    commitLoop orc tab columns (is1 ++ i :: is2)
      = ⟨is1.map (commitEv orc tab columns), [], Outcome.fatalBuild tab e⟩ := by
  induction is1 with
  | nil => simp [commitLoop, hfail]
  | cons j rest ih =>
    obtain ⟨hok, hcopy⟩ := h j (List.mem_cons_self j rest)
    cases hb : buildRow orc tab j columns with
    | ok c d =>
      rw [List.map_cons, List.cons_append]
      simp only [commitLoop, hb, hcopy]
      rw [ih (fun m hm => h m (List.mem_cons_of_mem _ hm))]
      simp [commitEv, hb, rowCol, rowData]
    | unsupported e2 => rw [hb] at hok; simp [rowIsOk] at hok
    | fatal e2 => rw [hb] at hok; simp [rowIsOk] at hok

theorem commitLoop_fatalCopy (orc : Oracle) (tab : String)
    (columns : List DBColumns) (is1 : List Nat) (i : Nat) (is2 : List Nat)
    (c d : List String) (e : String)
    (h : ∀ j ∈ is1, rowIsOk (buildRow orc tab j columns) = true ∧
        orc.copy tab j = none)
    (hok : buildRow orc tab i columns = RowResult.ok c d)
    (hcopy : orc.copy tab i = some e) :
    commitLoop orc tab columns (is1 ++ i :: is2)
      = ⟨is1.map (commitEv orc tab columns), [],
          Outcome.fatalCopy tab c d e⟩ := by
  induction is1 with
  | nil => simp [commitLoop, hok, hcopy]
  | cons j rest ih =>
    obtain ⟨hjok, hjcopy⟩ := h j (List.mem_cons_self j rest)
    cases hb : buildRow orc tab j columns with
    | ok c2 d2 =>
      rw [List.map_cons, List.cons_append]
      simp only [commitLoop, hb, hjcopy]
      rw [ih (fun m hm => h m (List.mem_cons_of_mem _ hm))]
      simp [commitEv, hb, rowCol, rowData]
    | unsupported e2 => rw [hb] at hjok; simp [rowIsOk] at hjok
    | fatal e2 => rw [hb] at hjok; simp [rowIsOk] at hjok

theorem range_split (i rows : Nat) (hi : i < rows) :
    ∃ suffix, List.range rows = List.range i ++ i :: suffix := by
  obtain ⟨k, hk⟩ := Nat.exists_eq_add_of_lt hi
  refine ⟨(List.range k).map (fun m => i + (m + 1)), ?_⟩
  have h2 : rows = i + (k + 1) := by omega
  rw [h2, List.range_add, List.range_succ_eq_map]
  simp [Function.comp]

theorem CommitData_all_ok (orc : Oracle) (rows : Nat) (t : TableCollection)
    (h : tableOK orc rows t) :
    CommitData orc rows t
      = ⟨(List.range rows).map (commitEv orc (tabOf t) t.Columns), [],
          Outcome.ok⟩ := by
  unfold CommitData
  exact commitLoop_all_ok orc (tabOf t) t.Columns (List.range rows)
    (fun j hj => h j (List.mem_range.mp hj))

theorem loadTables_all_ok (orc : Oracle) (rows : Nat)
    (ts : List TableCollection) (h : ∀ t ∈ ts, tableOK orc rows t) :
    loadTables orc rows ts
      = ⟨(ts.map (tableBlock orc rows)).flatten, [], Outcome.ok⟩ := by
  induction ts with
  | nil => simp [loadTables]
  | cons t rest ih =>
    have ht := h t (List.mem_cons_self t rest)
    simp only [loadTables, CommitData_all_ok orc rows t ht,
      ih (fun x hx => h x (List.mem_cons_of_mem t hx)),
      List.map_cons, List.flatten]
    simp [tableBlock]

theorem insertLoop_all_ok (orc : Oracle) (t : String) (is : List Nat)
    (h : ∀ n ∈ is, orc.ins t n = none) :
    insertLoop orc t is
      = ⟨is.map (fun _ => Event.insertDefault t), [], Outcome.ok⟩ := by
  induction is with
  | nil => simp [insertLoop]
  | cons n rest ih =>
    have hn := h n (List.mem_cons_self n rest)
    simp only [insertLoop, hn, ih (fun m hm => h m (List.mem_cons_of_mem n hm)),
      List.map_cons]

theorem addData_all_ok (orc : Oracle) (rows : Nat) (oct : List String)
    (h : ∀ t ∈ oct, ∀ j, j < rows → orc.ins t j = none) :
    addDataIfItsASerialDatatype orc rows oct
      = ⟨(oct.map
            (fun t => (List.range rows).map (fun _ => Event.insertDefault t))).flatten,
          [], Outcome.ok⟩ := by
  induction oct with
  | nil => simp [addDataIfItsASerialDatatype]
  | cons t rest ih =>
    have ht : ∀ n ∈ List.range rows, orc.ins t n = none :=
      fun n hn => h t (List.mem_cons_self t rest) n (List.mem_range.mp hn)
    simp only [addDataIfItsASerialDatatype, insertLoop_all_ok orc t _ ht,
      ih (fun x hx => h x (List.mem_cons_of_mem t hx)),
      List.map_cons, List.flatten]

theorem commitLoop_mem_copyRow (orc : Oracle) (tab : String)
    (columns : List DBColumns) (is : List Nat) (e : Event)
    (he : e ∈ (commitLoop orc tab columns is).events) :
    ∃ i ∈ is, ∃ c d, buildRow orc tab i columns = RowResult.ok c d ∧
      e = Event.copyRow tab c d := by
  induction is with
  | nil => simp [commitLoop] at he
  | cons i rest ih =>
    cases hb : buildRow orc tab i columns with
    | ok c d =>
      cases hc : orc.copy tab i with
      | some err => simp [commitLoop, hb, hc] at he
      | none =>
        simp only [commitLoop, hb, hc, List.mem_cons] at he
        rcases he with he | he
        · exact ⟨i, List.mem_cons_self i rest, c, d, hb, he⟩
        · obtain ⟨m, hm, c2, d2, hbd, hee⟩ := ih he
          exact ⟨m, List.mem_cons_of_mem i hm, c2, d2, hbd, hee⟩
    | unsupported err => simp [commitLoop, hb] at he
    | fatal err => simp [commitLoop, hb] at he

theorem buildRowAux_ok_shape (orc : Oracle) (tab : String) (i : Nat) :
    ∀ (cs : List DBColumns) (k : Nat) (col0 d0 c d : List String),
      buildRowAux orc tab i k cs col0 d0 = RowResult.ok c d →
      c = col0 ++ cs.map (fun x => x.Column) ∧
      ∃ tl, d = d0 ++ tl ∧ tl.length = cs.length := by
  intro cs
  induction cs with
  | nil =>
    intro k col0 d0 c d h
    simp only [buildRowAux, RowResult.ok.injEq] at h
    exact ⟨by simp [← h.1], [], by simp [← h.2]⟩
  | cons x rest ih =>
    intro k col0 d0 c d h
    simp only [buildRowAux] at h
    cases hg : orc.gen tab i k x.Datatype with
    | error err =>
      rw [hg] at h
      by_cases hu : isUnsupportedErr err <;> simp [hu] at h
    | ok v =>
      rw [hg] at h
      obtain ⟨hc, tl, hd, hlen⟩ := ih (k + 1) (col0 ++ [x.Column]) (d0 ++ [v]) c d h
      refine ⟨by simp [hc], v :: tl, by simp [hd], by simp [hlen]⟩

theorem buildRow_ok_shape (orc : Oracle) (tab : String) (i : Nat)
    (columns : List DBColumns) (c d : List String)
    (h : buildRow orc tab i columns = RowResult.ok c d) :
    c = columns.map (fun x => x.Column) ∧ d.length = columns.length := by
  obtain ⟨hc, tl, hd, hlen⟩ :=
    buildRowAux_ok_shape orc tab i columns 0 [] [] c d h
  refine ⟨by simpa using hc, ?_⟩
  rw [hd]
  simpa using hlen

theorem countCommits_own_block (orc : Oracle) (tab : String)
    (columns : List DBColumns) (n : Nat) :
    countCommits tab ((List.range n).map (commitEv orc tab columns)) = n := by
  unfold countCommits
  rw [List.countP_map]
  have : ∀ a ∈ List.range n, (isCommitFor tab ∘ commitEv orc tab columns) a = true := by
    intro a _
    simp [Function.comp, isCommitFor, commitEv]
  calc (List.range n).countP (isCommitFor tab ∘ commitEv orc tab columns)
      = (List.range n).length := List.countP_eq_length.mpr this
    _ = n := List.length_range n

/-- Concrete fixture: the users table of the spec's Scenario A. -/
def tabUsers : DBTables := { Schema := "public", Table := "users" }

/-- Concrete fixture: the counter table of the spec's Scenario B. -/
def tabCounter : DBTables := { Schema := "public", Table := "counter" }

/-- Concrete fixture: a sequence-backed integer id column. -/
def colId : DBColumns :=
  { Column := "id", Datatype := "integer",
    Sequence := "nextval(users_id_seq::regclass)" }

/-- Concrete fixture: a plain text column with no default. -/
def colName : DBColumns :=
  { Column := "name", Datatype := "text", Sequence := "" }

/-- Concrete fixture: the lone sequence-backed column of counter. -/
def colIdCounter : DBColumns :=
  { Column := "id", Datatype := "integer",
    Sequence := "nextval(counter_id_seq::regclass)" }

/-- Concrete fixture: the schema introspection of the two-table scenario. -/
def colsW : DBTables → List DBColumns := fun t =>
  if t = tabUsers then [colId, colName]
  else if t = tabCounter then [colIdCounter]
  else []

/-- Concrete fixture: the collection the classifier builds for users. -/
def tcUsers : TableCollection := { table := tabUsers, Columns := [colName] }

/-- Concrete fixture: an oracle whose generator, transport and insertions
always succeed. -/
def orcOK : Oracle :=
  { gen := fun _ _ _ _ => Except.ok "42",
    copy := fun _ _ => none,
    ins := fun _ _ => none }

/-- C3: running classification twice on the same table list and column
descriptors yields identical TableCollections and identical
SequenceOnlyTable membership, and the TableCollections are a pure function
of the input column descriptors, independent of the accumulator state the
classifier threads through. -/
theorem classification_idempotent_and_pure (cols : DBTables → List DBColumns)
    (s0 : List String) (ts : List DBTables) :
    ((columnExtractor cols (columnExtractor cols s0 ts).2 ts).1
        = (columnExtractor cols s0 ts).1)
    ∧ (∀ x, x ∈ (columnExtractor cols (columnExtractor cols s0 ts).2 ts).2 ↔
        x ∈ (columnExtractor cols s0 ts).2)
    ∧ (∀ s1 s2 : List String,
        (columnExtractor cols s1 ts).1 = (columnExtractor cols s2 ts).1) := by
  refine ⟨?_, ?_, fun s1 s2 => ?_⟩
  · rw [columnExtractor_fst, columnExtractor_fst]
  · intro x
    rw [columnExtractor_snd, columnExtractor_snd]
    simp only [List.mem_append]
    tauto
  · rw [columnExtractor_fst, columnExtractor_fst]

/-- C4: the classifier treats a column as sequence-backed exactly when its
default expression starts with the literal marker "nextval" (case-sensitive,
no normalization); every TableCollection it emits consists exactly of the
non-sequence-backed columns of its table, in their original relative order,
and contains every non-sequence-backed column. -/
theorem serial_excluded_order_preserved (cols : DBTables → List DBColumns)
    (s0 : List String) (ts : List DBTables) (tc : TableCollection)
    (htc : tc ∈ (columnExtractor cols s0 ts).1) :
    tc.Columns = (cols tc.table).filter (fun c => !isItSerialDatatype c)
    ∧ List.Sublist tc.Columns (cols tc.table)
    ∧ (∀ c ∈ tc.Columns, isItSerialDatatype c = false)
    ∧ (∀ c ∈ cols tc.table, isItSerialDatatype c = false → c ∈ tc.Columns)
    ∧ (∀ c : DBColumns,
        isItSerialDatatype c = List.isPrefixOf "nextval".data c.Sequence.data) := by
  rw [columnExtractor_fst] at htc
  obtain ⟨t, _, heq⟩ := List.mem_filterMap.mp htc
  unfold eligibleCollection at heq
  by_cases hl : ((cols t).filter (fun c => !isItSerialDatatype c)).length > 0
  · simp only [hl, if_pos] at heq
    obtain rfl := Option.some.injEq _ _ ▸ heq
    refine ⟨rfl, List.filter_sublist _, ?_, ?_, fun c => rfl⟩
    · intro c hc
      have := (List.mem_filter.mp hc).2
      simpa using this
    · intro c hc hser
      exact List.mem_filter.mpr ⟨hc, by simp [hser]⟩
  · simp [hl] at heq

/-- C5: a table with exactly one column, that column sequence-backed, is
registered in SequenceOnlyTable and yields no TableCollection; a table all
of whose columns are sequence-backed but whose column count is not one
(more than one, or zero) contributes nothing to SequenceOnlyTable and
yields no TableCollection either. -/
theorem sequence_only_registration (cols : DBTables → List DBColumns)
    (s0 : List String) (ts : List DBTables) (t : DBTables) (ht : t ∈ ts) :
    ((∃ c, cols t = [c] ∧ isItSerialDatatype c = true) →
        GenerateTableName t.Table t.Schema ∈ (columnExtractor cols s0 ts).2
        ∧ ∀ tc ∈ (columnExtractor cols s0 ts).1, tc.table ≠ t)
    ∧ ((cols t).length ≠ 1 ∧ (∀ c ∈ cols t, isItSerialDatatype c = true) →
        seqOnlyOf cols t = none
        ∧ (∀ tc ∈ (columnExtractor cols s0 ts).1, tc.table ≠ t)
        ∧ (GenerateTableName t.Table t.Schema ∈ (columnExtractor cols s0 ts).2 ↔
            GenerateTableName t.Table t.Schema ∈ s0
            ∨ ∃ t', t' ∈ ts ∧ t' ≠ t ∧
                seqOnlyOf cols t'
                  = some (GenerateTableName t.Table t.Schema))) := by
  have hnocoll : (cols t).filter (fun c => !isItSerialDatatype c) = [] →
      ∀ tc ∈ (columnExtractor cols s0 ts).1, tc.table ≠ t := by
    intro hnil tc htc heqt
    rw [columnExtractor_fst] at htc
    obtain ⟨t', _, heq⟩ := List.mem_filterMap.mp htc
    unfold eligibleCollection at heq
    by_cases hl : ((cols t').filter (fun c => !isItSerialDatatype c)).length > 0
    · simp only [hl, if_pos, Option.some.injEq] at heq
      have htt : t' = t := by rw [← heq] at heqt; exact heqt
      rw [htt, hnil] at hl
      simp at hl
    · simp [hl] at heq
  constructor
  · rintro ⟨c, hc, hser⟩
    have hnil : (cols t).filter (fun x => !isItSerialDatatype x) = [] := by
      rw [hc]
      simp [List.filter, hser]
    refine ⟨?_, hnocoll hnil⟩
    rw [columnExtractor_snd]
    refine List.mem_append.mpr (Or.inr (List.mem_filterMap.mpr ⟨t, ht, ?_⟩))
    simp [seqOnlyOf, hc, hser]
  · rintro ⟨hlen, hall⟩
    have hnone : seqOnlyOf cols t = none := by
      unfold seqOnlyOf
      cases hcols : cols t with
      | nil => rfl
      | cons c rest =>
        cases rest with
        | nil => rw [hcols] at hlen; simp at hlen
        | cons c2 rest2 => rfl
    have hnil : (cols t).filter (fun x => !isItSerialDatatype x) = [] := by
      rw [List.filter_eq_nil_iff]
      intro a ha
      simp [hall a ha]
    refine ⟨hnone, hnocoll hnil, ?_⟩
    rw [columnExtractor_snd]
    simp only [List.mem_append, List.mem_filterMap]
    constructor
    · rintro (h | ⟨t', ht', hsome⟩)
      · exact Or.inl h
      · refine Or.inr ⟨t', ht', ?_, hsome⟩
        rintro rfl
        rw [hnone] at hsome
        exact Option.noConfusion hsome
    · rintro (h | ⟨t', ht', _, hsome⟩)
      · exact Or.inl h
      · exact Or.inr ⟨t', ht', hsome⟩

/-- Witness for C4: in the two-table scenario the classifier builds the
users collection with only the name column, satisfying every conclusion. -/
theorem serial_excluded_order_preserved_w :
    tcUsers ∈ (columnExtractor colsW [] [tabUsers, tabCounter]).1
    ∧ (tcUsers.Columns
        = (colsW tcUsers.table).filter (fun c => !isItSerialDatatype c)
      ∧ List.Sublist tcUsers.Columns (colsW tcUsers.table)
      ∧ (∀ c ∈ tcUsers.Columns, isItSerialDatatype c = false)
      ∧ (∀ c ∈ colsW tcUsers.table, isItSerialDatatype c = false →
          c ∈ tcUsers.Columns)
      ∧ (∀ c : DBColumns,
          isItSerialDatatype c
            = List.isPrefixOf "nextval".data c.Sequence.data)) :=
  ⟨by decide,
   serial_excluded_order_preserved colsW [] [tabUsers, tabCounter] tcUsers
     (by decide)⟩

/-- Witness for C5: counter has exactly one, sequence-backed column; it is
registered in SequenceOnlyTable and no collection is built for it. -/
theorem sequence_only_registration_w :
    tabCounter ∈ [tabUsers, tabCounter]
    ∧ (∃ c, colsW tabCounter = [c] ∧ isItSerialDatatype c = true)
    ∧ (GenerateTableName tabCounter.Table tabCounter.Schema
          ∈ (columnExtractor colsW [] [tabUsers, tabCounter]).2
      ∧ ∀ tc ∈ (columnExtractor colsW [] [tabUsers, tabCounter]).1,
          tc.table ≠ tabCounter) :=
  ⟨by decide, ⟨colIdCounter, by decide, by decide⟩,
   (sequence_only_registration colsW [] [tabUsers, tabCounter] tabCounter
      (by decide)).1 ⟨colIdCounter, by decide, by decide⟩⟩

/-- C7: a table load that completes without any synthesis or commit
failure commits exactly the configured number of rows: one committed copy
per requested row, no skip entry, and an ok outcome. -/
theorem successful_load_commits_exact_rows (orc : Oracle) (rows : Nat)
    (t : TableCollection) (h : tableOK orc rows t) :
    (CommitData orc rows t).events
      = (List.range rows).map (commitEv orc (tabOf t) t.Columns)
    ∧ countCommits (tabOf t) (CommitData orc rows t).events = rows
    ∧ (CommitData orc rows t).outcome = Outcome.ok
    ∧ (CommitData orc rows t).skippedAdd = [] := by
  rw [CommitData_all_ok orc rows t h]
  exact ⟨rfl, countCommits_own_block orc (tabOf t) t.Columns rows, rfl, rfl⟩

/-- Witness for C7: three rows of users commit exactly three payloads. -/
theorem successful_load_commits_exact_rows_w :
    tableOK orcOK 3 tcUsers
    ∧ ((CommitData orcOK 3 tcUsers).events
          = (List.range 3).map (commitEv orcOK (tabOf tcUsers) tcUsers.Columns)
      ∧ countCommits (tabOf tcUsers) (CommitData orcOK 3 tcUsers).events = 3
      ∧ (CommitData orcOK 3 tcUsers).outcome = Outcome.ok
      ∧ (CommitData orcOK 3 tcUsers).skippedAdd = []) :=
  ⟨by decide, successful_load_commits_exact_rows orcOK 3 tcUsers (by decide)⟩

/-- C1: if value synthesis fails with UnsupportedDatatype while building
row i of table T, exactly rows 0..i-1 of T were committed, T is appended
to the skipped set exactly once, the outcome stays ok (the run does not
abort), and every subsequent table whose rows all succeed still commits
its full configured row count. -/
theorem unsupported_skips_table_and_continues (orc : Oracle) (rows : Nat)
    (T : TableCollection) (post : List TableCollection) (i : Nat)
    (hi : i < rows)
    (hpre : ∀ j, j < i → rowIsOk (buildRow orc (tabOf T) j T.Columns) = true ∧
        orc.copy (tabOf T) j = none)
    (hfail : rowIsUnsupported (buildRow orc (tabOf T) i T.Columns) = true)
    (hpost : ∀ t ∈ post, tableOK orc rows t) :
    (loadTables orc rows (T :: post)).events
      = Event.removeConstraints (tabOf T)
        :: ((List.range i).map (commitEv orc (tabOf T) T.Columns)
            ++ (post.map (tableBlock orc rows)).flatten)
    ∧ (loadTables orc rows (T :: post)).skippedAdd = [tabOf T]
    ∧ (loadTables orc rows (T :: post)).outcome = Outcome.ok
    ∧ countCommits (tabOf T)
        ((List.range i).map (commitEv orc (tabOf T) T.Columns)) = i
    ∧ (∀ t ∈ post, countCommits (tabOf t) (tableBlock orc rows t) = rows) := by
  obtain ⟨suffix, hsplit⟩ := range_split i rows hi
  have hcommit : CommitData orc rows T
      = ⟨(List.range i).map (commitEv orc (tabOf T) T.Columns), [tabOf T],
          Outcome.ok⟩ := by
    unfold CommitData
    rw [hsplit]
    exact commitLoop_unsupported orc (tabOf T) T.Columns (List.range i) i suffix
      (fun j hj => hpre j (List.mem_range.mp hj)) hfail
  have hload := loadTables_all_ok orc rows post hpost
  refine ⟨?_, ?_, ?_, countCommits_own_block orc (tabOf T) T.Columns i, ?_⟩
  · simp [loadTables, hcommit, hload]
  · simp [loadTables, hcommit, hload]
  · simp [loadTables, hcommit, hload]
  · intro t ht
    unfold tableBlock countCommits
    rw [List.countP_cons_of_neg]
    · exact countCommits_own_block orc (tabOf t) t.Columns rows
    · simp [isCommitFor]

/-- Concrete fixture: a geometry column with no registered synthesizer. -/
def colGeom : DBColumns :=
  { Column := "shape", Datatype := "geometry", Sequence := "" }

/-- Concrete fixture: the orders table of the spec's Scenario C. -/
def tabOrders : DBTables := { Schema := "public", Table := "orders" }

/-- Concrete fixture: the collection built for orders. -/
def tcOrders : TableCollection := { table := tabOrders, Columns := [colGeom] }

/-- Concrete fixture: an oracle whose generator rejects geometry on row 1
with the unsupported-datatype error and succeeds everywhere else. -/
def orcGeo : Oracle :=
  { gen := fun _ i _ dt =>
      if dt == "geometry" && i == 1
      then Except.error "unsupported datatypes found for geometry"
      else Except.ok "42",
    copy := fun _ _ => none,
    ins := fun _ _ => none }

/-- Witness for C1: orders fails with UnsupportedDatatype on row 1 of 2;
row 0 stays committed, orders is skipped once, the run continues and the
subsequent users table commits both its rows. -/
theorem unsupported_skips_table_and_continues_w :
    (1 < 2
      ∧ (∀ j, j < 1 →
          rowIsOk (buildRow orcGeo (tabOf tcOrders) j tcOrders.Columns) = true ∧
          orcGeo.copy (tabOf tcOrders) j = none)
      ∧ rowIsUnsupported (buildRow orcGeo (tabOf tcOrders) 1 tcOrders.Columns)
          = true
      ∧ (∀ t ∈ [tcUsers], tableOK orcGeo 2 t))
    ∧ ((loadTables orcGeo 2 (tcOrders :: [tcUsers])).skippedAdd
          = [tabOf tcOrders]
      ∧ (loadTables orcGeo 2 (tcOrders :: [tcUsers])).outcome = Outcome.ok
      ∧ countCommits (tabOf tcOrders)
          ((List.range 1).map (commitEv orcGeo (tabOf tcOrders) tcOrders.Columns))
          = 1
      ∧ (∀ t ∈ [tcUsers], countCommits (tabOf t) (tableBlock orcGeo 2 t) = 2)) := by
  refine ⟨⟨by decide, by decide, by decide, by decide⟩, ?_⟩
  have h := unsupported_skips_table_and_continues orcGeo 2 tcOrders [tcUsers] 1
    (by decide) (by decide) (by decide) (by decide)
  exact ⟨h.2.1, h.2.2.1, h.2.2.2.1, h.2.2.2.2⟩

theorem loadTables_head_fatal (orc : Oracle) (rows : Nat)
    (T : TableCollection) (post : List TableCollection)
    (evs : List Event) (sk : List String) (out : Outcome)
    (h : CommitData orc rows T = ⟨evs, sk, out⟩) (hne : out ≠ Outcome.ok) :
    loadTables orc rows (T :: post)
      = ⟨Event.removeConstraints (tabOf T) :: evs, sk, out⟩ := by
  cases out with
  | ok => exact absurd rfl hne
  | fatalBuild a b => simp [loadTables, h]
  | fatalCopy a b c d => simp [loadTables, h]
  | fatalInsert a b => simp [loadTables, h]

theorem backup_head_fatal (orc : Oracle) (rows : Nat)
    (ts : List TableCollection) (oct : List String)
    (evs : List Event) (sk : List String) (out : Outcome)
    (h : loadTables orc rows ts = ⟨evs, sk, out⟩) (hne : out ≠ Outcome.ok) :
    BackupConstraintsAndStartDataLoading orc rows ts oct
      = ⟨Event.backupDDL :: evs, sk, out⟩ := by
  cases out with
  | ok => exact absurd rfl hne
  | fatalBuild a b => simp [BackupConstraintsAndStartDataLoading, h]
  | fatalCopy a b c d => simp [BackupConstraintsAndStartDataLoading, h]
  | fatalInsert a b => simp [BackupConstraintsAndStartDataLoading, h]

theorem MockTable_fatal (orc : Oracle) (rows : Nat) (ic dp : Bool)
    (cols : DBTables → List DBColumns) (a : DBTables) (as : List DBTables)
    (evs : List Event) (sk : List String) (out : Outcome)
    (hcolne : (columnExtractor cols [] (a :: as)).1.length > 0)
    (h : BackupConstraintsAndStartDataLoading orc rows
        (columnExtractor cols [] (a :: as)).1
        (columnExtractor cols [] (a :: as)).2 = ⟨evs, sk, out⟩)
    (hne : out ≠ Outcome.ok) :
    MockTable orc rows ic dp cols (a :: as)
      = ⟨evs, sk, (columnExtractor cols [] (a :: as)).2, out⟩ := by
  cases out with
  | ok => exact absurd rfl hne
  | fatalBuild x y => simp [MockTable, hcolne, h]
  | fatalCopy x y z w => simp [MockTable, hcolne, h]
  | fatalInsert x y => simp [MockTable, hcolne, h]

/-- C9: a synthesis failure other than UnsupportedDatatype on row i of the
first collection, or a transport failure committing that row, terminates
the whole run at that point: the trace ends inside that table's load (the
rows already committed stay, nothing of any later table, of the
sequence-only loader, of the skip report or of constraint restoration ever
runs) and the outcome is fatal, carrying the failing table's name and the
underlying cause. -/
theorem fatal_failure_halts_run (orc : Oracle) (rows : Nat)
    (ic dp : Bool) (cols : DBTables → List DBColumns) (tables : List DBTables)
    (T : TableCollection) (post : List TableCollection) (i : Nat) (e : String)
    (hcoll : (columnExtractor cols [] tables).1 = T :: post)
    (hi : i < rows)
    (hpre : ∀ j, j < i → rowIsOk (buildRow orc (tabOf T) j T.Columns) = true ∧
        orc.copy (tabOf T) j = none)
    (hfail : buildRow orc (tabOf T) i T.Columns = RowResult.fatal e
      ∨ ∃ c d, buildRow orc (tabOf T) i T.Columns = RowResult.ok c d
          ∧ orc.copy (tabOf T) i = some e) :
    (MockTable orc rows ic dp cols tables).events
      = Event.backupDDL :: Event.removeConstraints (tabOf T)
          :: (List.range i).map (commitEv orc (tabOf T) T.Columns)
    ∧ ((MockTable orc rows ic dp cols tables).outcome
          = Outcome.fatalBuild (tabOf T) e
      ∨ ∃ c d, (MockTable orc rows ic dp cols tables).outcome
          = Outcome.fatalCopy (tabOf T) c d e) := by
  obtain ⟨suffix, hsplit⟩ := range_split i rows hi
  cases tables with
  | nil => simp [columnExtractor] at hcoll
  | cons a as =>
    have hlen : (columnExtractor cols [] (a :: as)).1.length > 0 := by
      rw [hcoll]; simp
    rcases hfail with hb | ⟨c, d, hb, hcp⟩
    · have hcd : CommitData orc rows T
          = ⟨(List.range i).map (commitEv orc (tabOf T) T.Columns), [],
              Outcome.fatalBuild (tabOf T) e⟩ := by
        unfold CommitData
        rw [hsplit]
        exact commitLoop_fatalBuild orc (tabOf T) T.Columns (List.range i) i
          suffix e (fun j hj => hpre j (List.mem_range.mp hj)) hb
      have hload : loadTables orc rows (T :: post)
          = ⟨Event.removeConstraints (tabOf T)
              :: (List.range i).map (commitEv orc (tabOf T) T.Columns), [],
              Outcome.fatalBuild (tabOf T) e⟩ :=
        loadTables_head_fatal orc rows T post _ _ _ hcd (by simp)
      have hback : BackupConstraintsAndStartDataLoading orc rows
          (columnExtractor cols [] (a :: as)).1
          (columnExtractor cols [] (a :: as)).2
          = ⟨Event.backupDDL :: Event.removeConstraints (tabOf T)
              :: (List.range i).map (commitEv orc (tabOf T) T.Columns), [],
              Outcome.fatalBuild (tabOf T) e⟩ :=
        backup_head_fatal orc rows _ _ _ _ _ (by rw [hcoll]; exact hload)
          (by simp)
      have hmock : MockTable orc rows ic dp cols (a :: as)
          = ⟨Event.backupDDL :: Event.removeConstraints (tabOf T)
              :: (List.range i).map (commitEv orc (tabOf T) T.Columns), [],
              (columnExtractor cols [] (a :: as)).2,
              Outcome.fatalBuild (tabOf T) e⟩ :=
        MockTable_fatal orc rows ic dp cols a as _ _ _ hlen hback (by simp)
      rw [hmock]
      exact ⟨rfl, Or.inl rfl⟩
    · have hcd : CommitData orc rows T
          = ⟨(List.range i).map (commitEv orc (tabOf T) T.Columns), [],
              Outcome.fatalCopy (tabOf T) c d e⟩ := by
        unfold CommitData
        rw [hsplit]
        exact commitLoop_fatalCopy orc (tabOf T) T.Columns (List.range i) i
          suffix c d e (fun j hj => hpre j (List.mem_range.mp hj)) hb hcp
      have hload : loadTables orc rows (T :: post)
          = ⟨Event.removeConstraints (tabOf T)
              :: (List.range i).map (commitEv orc (tabOf T) T.Columns), [],
              Outcome.fatalCopy (tabOf T) c d e⟩ :=
        loadTables_head_fatal orc rows T post _ _ _ hcd (by simp)
      have hback : BackupConstraintsAndStartDataLoading orc rows
          (columnExtractor cols [] (a :: as)).1
          (columnExtractor cols [] (a :: as)).2
          = ⟨Event.backupDDL :: Event.removeConstraints (tabOf T)
              :: (List.range i).map (commitEv orc (tabOf T) T.Columns), [],
              Outcome.fatalCopy (tabOf T) c d e⟩ :=
        backup_head_fatal orc rows _ _ _ _ _ (by rw [hcoll]; exact hload)
          (by simp)
      have hmock : MockTable orc rows ic dp cols (a :: as)
          = ⟨Event.backupDDL :: Event.removeConstraints (tabOf T)
              :: (List.range i).map (commitEv orc (tabOf T) T.Columns), [],
              (columnExtractor cols [] (a :: as)).2,
              Outcome.fatalCopy (tabOf T) c d e⟩ :=
        MockTable_fatal orc rows ic dp cols a as _ _ _ hlen hback (by simp)
      rw [hmock]
      exact ⟨rfl, Or.inr ⟨c, d, rfl⟩⟩

/-- Concrete fixture: an oracle whose generator always fails with a
non-unsupported (connection) error. -/
def orcBoom : Oracle :=
  { gen := fun _ _ _ _ => Except.error "server closed the connection",
    copy := fun _ _ => none,
    ins := fun _ _ => none }

/-- Witness for C9: with users as the only table and a connection error on
the first generated value, the run dies at once with a fatal outcome that
names the table and the cause; nothing past row 0 of users happens. -/
theorem fatal_failure_halts_run_w :
    ((columnExtractor colsW [] [tabUsers]).1 = tcUsers :: []
      ∧ 0 < 1
      ∧ buildRow orcBoom (tabOf tcUsers) 0 tcUsers.Columns
          = RowResult.fatal "server closed the connection")
    ∧ ((MockTable orcBoom 1 false false colsW [tabUsers]).events
          = Event.backupDDL :: Event.removeConstraints (tabOf tcUsers)
              :: (List.range 0).map (commitEv orcBoom (tabOf tcUsers) tcUsers.Columns)
      ∧ ((MockTable orcBoom 1 false false colsW [tabUsers]).outcome
            = Outcome.fatalBuild (tabOf tcUsers) "server closed the connection"
        ∨ ∃ c d, (MockTable orcBoom 1 false false colsW [tabUsers]).outcome
            = Outcome.fatalCopy (tabOf tcUsers) c d
                "server closed the connection")) := by
  refine ⟨⟨by decide, by decide, by decide⟩, ?_⟩
  exact fatal_failure_halts_run orcBoom 1 false false colsW [tabUsers] tcUsers
    [] 0 "server closed the connection" (by decide) (by decide) (by decide)
    (Or.inl (by decide))

/-- C10: no partially built row ever reaches the transport.  Every copy
payload committed during a table's load carries the table's own name, a
column list that is exactly the collection's columns in collection order,
one value per column, and stems from a row whose build completed
successfully - values of a row whose build failed midway are discarded. -/
theorem no_partial_row_committed (orc : Oracle) (rows : Nat)
    (t : TableCollection) (tab : String) (c d : List String)
    (h : Event.copyRow tab c d ∈ (CommitData orc rows t).events) :
    tab = tabOf t
    ∧ c = t.Columns.map (fun x => x.Column)
    ∧ d.length = t.Columns.length
    ∧ ∃ i, i < rows ∧ buildRow orc (tabOf t) i t.Columns = RowResult.ok c d := by
  obtain ⟨i, hi, c2, d2, hb, he⟩ :=
    commitLoop_mem_copyRow orc (tabOf t) t.Columns (List.range rows) _ h
  injection he with h1 h2 h3
  subst h2
  subst h3
  obtain ⟨hcshape, hdlen⟩ := buildRow_ok_shape orc (tabOf t) i t.Columns c d hb
  exact ⟨h1, hcshape, hdlen, i, List.mem_range.mp hi, hb⟩

/-- Witness for C10: the one committed payload of a one-row users load is
fully built and positionally aligned. -/
theorem no_partial_row_committed_w :
    Event.copyRow (tabOf tcUsers) ["name"] ["42"]
        ∈ (CommitData orcOK 1 tcUsers).events
    ∧ (tabOf tcUsers = tabOf tcUsers
      ∧ ["name"] = tcUsers.Columns.map (fun x => x.Column)
      ∧ (["42"] : List String).length = tcUsers.Columns.length
      ∧ ∃ i, i < 1 ∧ buildRow orcOK (tabOf tcUsers) i tcUsers.Columns
          = RowResult.ok ["name"] ["42"]) :=
  ⟨by decide,
   no_partial_row_committed orcOK 1 tcUsers (tabOf tcUsers) ["name"] ["42"]
     (by decide)⟩

/-- C6 counterexample: loading two rows of users submits two transport
payloads, one per row - not a single delimited stream holding both rows.
The claim that multiple rows are joined into one payload is false on the
code, which calls the copy transport once inside every loop iteration. -/
theorem row_batching_counterexample :
    (CommitData orcOK 2 tcUsers).events.length = 2
    ∧ ¬ ((CommitData orcOK 2 tcUsers).events.length = 1) := by
  decide

/-- C6 amended: each row's values are serialized as text and joined with
the single non-alphanumeric delimiter "$" into that row's own payload; a
successful load submits exactly one payload per configured row (rows are
never batched into one delimiter-joined stream). -/
theorem per_row_payload_with_delimiter (orc : Oracle) (rows : Nat)
    (t : TableCollection) (h : tableOK orc rows t) :
    delimiter = "$"
    ∧ delimiter.data.length = 1
    ∧ (∀ ch ∈ delimiter.data, ch.isAlphanum = false)
    ∧ (CommitData orc rows t).events.length = rows
    ∧ (∀ e ∈ (CommitData orc rows t).events, ∃ j c d,
        j < rows ∧ buildRow orc (tabOf t) j t.Columns = RowResult.ok c d
        ∧ e = Event.copyRow (tabOf t) c d
        ∧ copyPayload d = String.intercalate delimiter d) := by
  refine ⟨rfl, by decide, by decide, ?_, ?_⟩
  · rw [CommitData_all_ok orc rows t h]
    simp
  · intro e he
    obtain ⟨j, hj, c, d, hb, hee⟩ :=
      commitLoop_mem_copyRow orc (tabOf t) t.Columns (List.range rows) e he
    exact ⟨j, c, d, List.mem_range.mp hj, hb, hee, rfl⟩

/-- Witness for C6's amended statement: a three-row users load submits
exactly three one-row payloads. -/
theorem per_row_payload_with_delimiter_w :
    tableOK orcOK 3 tcUsers
    ∧ (delimiter = "$"
      ∧ delimiter.data.length = 1
      ∧ (∀ ch ∈ delimiter.data, ch.isAlphanum = false)
      ∧ (CommitData orcOK 3 tcUsers).events.length = 3
      ∧ (∀ e ∈ (CommitData orcOK 3 tcUsers).events, ∃ j c d,
          j < 3 ∧ buildRow orcOK (tabOf tcUsers) j tcUsers.Columns
              = RowResult.ok c d
          ∧ e = Event.copyRow (tabOf tcUsers) c d
          ∧ copyPayload d = String.intercalate delimiter d)) :=
  ⟨by decide, per_row_payload_with_delimiter orcOK 3 tcUsers (by decide)⟩

/-- C2 counterexample: with counter as the only input table, the classifier
does flag it as sequence-only, but the resulting collection set is empty,
so tableMocker stops at the no-columns warning before the sequence-only
loader runs: zero default-value insertions are issued, not five. -/
theorem counter_alone_no_insertions :
    countInserts (GenerateTableName "counter" "public")
      (MockTable orcOK 5 false false colsW [tabCounter]).events = 0
    ∧ ¬ (countInserts (GenerateTableName "counter" "public")
      (MockTable orcOK 5 false false colsW [tabCounter]).events = 5) := by
  decide

/-- C2 amended: the classifier places counter into SequenceOnlyTable and
produces no TableCollection for it, but the sequence-only loader only runs
when the collection set is non-empty: with counter as the sole input table
the run stops at the no-columns warning with zero insertions, while in a
run that also contains a table with synthesizable columns exactly five
separate default-value insertions into counter are issued. -/
theorem counter_scenario_amended :
    (columnExtractor colsW [] [tabCounter]).2
        = [GenerateTableName "counter" "public"]
    ∧ (columnExtractor colsW [] [tabCounter]).1 = []
    ∧ countInserts (GenerateTableName "counter" "public")
        (MockTable orcOK 5 false false colsW [tabCounter]).events = 0
    ∧ (∀ tc ∈ (columnExtractor colsW [] [tabUsers, tabCounter]).1,
        tc.table ≠ tabCounter)
    ∧ countInserts (GenerateTableName "counter" "public")
        (MockTable orcOK 5 false false colsW [tabUsers, tabCounter]).events
        = 5 := by
  decide

theorem MockTable_all_ok (orc : Oracle) (rows : Nat) (ic dp : Bool)
    (cols : DBTables → List DBColumns) (tables : List DBTables)
    (hne : (columnExtractor cols [] tables).1 ≠ [])
    (hok : ∀ t ∈ (columnExtractor cols [] tables).1, tableOK orc rows t)
    (hins : ∀ nm ∈ (columnExtractor cols [] tables).2, ∀ j, j < rows →
        orc.ins nm j = none) :
    MockTable orc rows ic dp cols tables
      = ⟨(Event.backupDDL
            :: (((columnExtractor cols [] tables).1.map
                  (tableBlock orc rows)).flatten
              ++ ((columnExtractor cols [] tables).2.map
                  (fun nm => (List.range rows).map
                    (fun _ => Event.insertDefault nm))).flatten))
          ++ (if ic then [] else [Event.fixConstraints]),
         [], (columnExtractor cols [] tables).2, Outcome.ok⟩ := by
  cases tables with
  | nil => exact absurd rfl hne
  | cons a as =>
    have hload := loadTables_all_ok orc rows
      (columnExtractor cols [] (a :: as)).1 hok
    have hadd := addData_all_ok orc rows
      (columnExtractor cols [] (a :: as)).2 hins
    have hback : BackupConstraintsAndStartDataLoading orc rows
        (columnExtractor cols [] (a :: as)).1
        (columnExtractor cols [] (a :: as)).2
        = ⟨Event.backupDDL
            :: (((columnExtractor cols [] (a :: as)).1.map
                  (tableBlock orc rows)).flatten
              ++ ((columnExtractor cols [] (a :: as)).2.map
                  (fun nm => (List.range rows).map
                    (fun _ => Event.insertDefault nm))).flatten),
           [], Outcome.ok⟩ := by
      simp only [BackupConstraintsAndStartDataLoading, hload, hadd]
      simp [skipWarnEvents]
    have hlen : (columnExtractor cols [] (a :: as)).1.length > 0 :=
      List.length_pos.mpr hne
    cases ic with
    | false => simp [MockTable, hlen, hback]
    | true => simp [MockTable, hlen, hback]

theorem tableBlock_countP_fix (orc : Oracle) (rows : Nat)
    (t : TableCollection) :
    (tableBlock orc rows t).countP isFixEv = 0 := by
  unfold tableBlock
  rw [List.countP_eq_zero]
  intro a ha
  rcases List.mem_cons.mp ha with rfl | hmem
  · simp [isFixEv]
  · obtain ⟨j, _, rfl⟩ := List.mem_map.mp hmem
    simp [isFixEv, commitEv]

theorem insertBlock_countP_fix (rows : Nat) (nm : String) :
    (List.replicate rows (Event.insertDefault nm)).countP isFixEv = 0 := by
  rw [List.countP_eq_zero]
  intro a ha
  rw [List.eq_of_mem_replicate ha]
  simp [isFixEv]

/-- C8: in a run where every load succeeds, the trace is the DDL backup
first (before any constraint removal), then per collection a block that
removes that table's constraints before any of its rows is written and
contains nothing but that table's committed rows, then the sequence-only
insertions, and constraint restoration as the single final event - exactly
once, never interleaved with the loads; when the operator disabled
restoration it never runs at all. -/
theorem constraint_lifecycle (orc : Oracle) (rows : Nat) (dp : Bool)
    (cols : DBTables → List DBColumns) (tables : List DBTables)
    (hne : (columnExtractor cols [] tables).1 ≠ [])
    (hok : ∀ t ∈ (columnExtractor cols [] tables).1, tableOK orc rows t)
    (hins : ∀ nm ∈ (columnExtractor cols [] tables).2, ∀ j, j < rows →
        orc.ins nm j = none) :
    (MockTable orc rows false dp cols tables).events
      = Event.backupDDL
        :: (((columnExtractor cols [] tables).1.map
              (tableBlock orc rows)).flatten
          ++ ((columnExtractor cols [] tables).2.map
              (fun nm => (List.range rows).map
                (fun _ => Event.insertDefault nm))).flatten
          ++ [Event.fixConstraints])
    ∧ (∀ t : TableCollection, tableBlock orc rows t
        = Event.removeConstraints (tabOf t)
          :: (List.range rows).map (commitEv orc (tabOf t) t.Columns))
    ∧ (MockTable orc rows false dp cols tables).events.countP isFixEv = 1
    ∧ (MockTable orc rows true dp cols tables).events.countP isFixEv = 0 := by
  have h0 := MockTable_all_ok orc rows false dp cols tables hne hok hins
  have h1 := MockTable_all_ok orc rows true dp cols tables hne hok hins
  have hsum1 : (List.map (List.countP isFixEv ∘ tableBlock orc rows)
      (columnExtractor cols [] tables).1).sum = 0 := by
    rw [List.sum_eq_zero]
    intro x hx
    obtain ⟨t, _, rfl⟩ := List.mem_map.mp hx
    exact tableBlock_countP_fix orc rows t
  have hsum2 : (List.map (List.countP isFixEv ∘ fun nm =>
      List.replicate rows (Event.insertDefault nm))
      (columnExtractor cols [] tables).2).sum = 0 := by
    rw [List.sum_eq_zero]
    intro x hx
    obtain ⟨nm, _, rfl⟩ := List.mem_map.mp hx
    exact insertBlock_countP_fix rows nm
  refine ⟨?_, fun t => rfl, ?_, ?_⟩
  · rw [h0]
    simp
  · rw [h0]
    simp [List.countP_append, List.countP_cons, isFixEv, hsum1, hsum2]
  · rw [h1]
    simp [List.countP_append, List.countP_cons, isFixEv, hsum1, hsum2]

/-- Witness for C8 on the two-table scenario with two rows: restoration
fires exactly once at the end, and never when disabled. -/
theorem constraint_lifecycle_w :
    ((columnExtractor colsW [] [tabUsers, tabCounter]).1 ≠ []
      ∧ (∀ t ∈ (columnExtractor colsW [] [tabUsers, tabCounter]).1,
          tableOK orcOK 2 t)
      ∧ (∀ nm ∈ (columnExtractor colsW [] [tabUsers, tabCounter]).2,
          ∀ j, j < 2 → orcOK.ins nm j = none))
    ∧ ((MockTable orcOK 2 false false colsW
          [tabUsers, tabCounter]).events.countP isFixEv = 1
      ∧ (MockTable orcOK 2 true false colsW
          [tabUsers, tabCounter]).events.countP isFixEv = 0) := by
  refine ⟨⟨by decide, by decide, by decide⟩, ?_⟩
  have h := constraint_lifecycle orcOK 2 false colsW [tabUsers, tabCounter]
    (by decide) (by decide) (by decide)
  exact ⟨h.2.2.1, h.2.2.2⟩
